import Mathlib

/-!
Shallow embedding of the MLOps podcast pipeline (`src/pipeline.py`).

Modelling conventions:
* Python `str` values are Lean `String`s; the Python string operations the
  pipeline uses (`strip`, `lower`, slicing, `split`, `join`, `startswith`)
  are modelled explicitly on the underlying character list (`String.data`),
  restricted to ASCII whitespace/case, which is all the pipeline's data needs.
* Paths are modelled as flat file names (the pipeline only ever uses
  fixed directories plus a file name, so the directory is carried by the
  field of the world state the name is stored in).
* The filesystem and the GCS bucket are a `World` record; each durable
  collection (transcripts/, tags/, the bucket, FLAC files, the progress
  ledger) is one field.  `tags` is kept as a list in scan order, modelling
  the order `TAGS_DIR.glob("*.json")` enumerates the artifacts.
* External collaborators (ffmpeg, GCS upload, Speech-to-Text, Gemini,
  `json.loads`) are oracles in an `Env` record; a `none` result models the
  call raising an exception.
* Remote/billable invocations are counted in a `Calls` record.
-/

namespace Pipeline

/-- ASCII whitespace, as stripped by Python's `str.strip()`. -/
def isSp (c : Char) : Bool :=
  c = ' ' || c = '\t' || c = '\n' || c = '\r' || c = '\x0b' || c = '\x0c'

/-- Right-strip then left-strip whitespace characters (model of `str.strip()`). -/
def stripChars (l : List Char) : List Char :=
  ((l.reverse.dropWhile isSp).reverse).dropWhile isSp

/-- Model of Python `text.strip()`. -/
def pyStrip (s : String) : String := ⟨stripChars s.data⟩

/-- Model of Python `text.lower()` (ASCII case fold, which covers the tags data). -/
def pyLower (s : String) : String := ⟨s.data.map Char.toLower⟩

/-- Model of Python `text[:n]` (slicing counts characters, as Python does). -/
def pyTake (n : Nat) (s : String) : String := ⟨s.data.take n⟩

/-- The three-backtick markdown fence tested by `text.startswith("```")`. -/
def fenceChars : List Char := ['`', '`', '`']

/-- Model of `text.startswith("```")`. -/
def startsWith3Ticks (s : String) : Bool := fenceChars.isPrefixOf s.data

/-- Model of Python `"\n".join(lines)` where lines are character lists. -/
def joinLines (ls : List (List Char)) : String := ⟨['\n'].intercalate ls⟩

/-- Markdown code-fence removal in `tag_episode`: if the response starts with
"```", split on newlines and drop the first and last line (`lines[1:-1]`). -/
def stripFence (s : String) : String :=
  if startsWith3Ticks s then joinLines ((s.data.splitOn '\n').drop 1).dropLast
  else s

/-- Guest record of a parsed annotation (`guest` object in the JSON). -/
structure Guest where
  name : String
  role : String
  company : String
deriving DecidableEq

/-- A successfully parsed annotation dictionary, with the five fields the
prompt requests and the aggregator later reads back (absent keys are modelled
as already defaulted, mirroring the `.get(..., default)` reads). -/
structure AnnotData where
  tech_tags : List String
  business_tags : List String
  key_topics : List String
  guest : Guest
  summary : String
deriving DecidableEq

/-- Content of a tags/<stem>.json artifact: either a parsed annotation or the
explicit error variant `{"error": ..., "raw": ...}` written on parse failure.
(A parsed annotation is modelled as not containing an "error" key, matching
the shape the prompt requests.) -/
inductive TagFileData where
  | ok (d : AnnotData)
  | err (msg raw : String)
deriving DecidableEq

/-- Response handling of `tag_episode`: strip the response text, remove a
markdown code fence if present, then `json.loads`; on `JSONDecodeError`
return `{"error": "Failed to parse response", "raw": text[:500]}`.
`parseJson` is the `json.loads`-plus-shape oracle. -/
def parseTagResponse (parseJson : String → Option AnnotData)
    (responseText : String) : TagFileData :=
  let text := stripFence (pyStrip responseText)
  match parseJson text with
  | some d => TagFileData.ok d
  | none => TagFileData.err "Failed to parse response" (pyTake 500 text)

/-- The fixed-shape Gemini prompt of `tag_episode`, with the title and the
truncated transcript interpolated (braces of the JSON template are written
as character escapes). -/
def geminiPrompt (title excerpt : String) : String :=
  "Analyze this podcast episode transcript and extract:\n\n" ++
  "1. **Technology Tags** (5-10 specific technologies, frameworks, or tools mentioned)\n" ++
  "2. **Business Tags** (3-5 business concepts, strategies, or themes)\n" ++
  "3. **Key Topics** (3-5 main discussion topics)\n" ++
  "4. **Guest Info** (name, role, company if mentioned)\n" ++
  "5. **One-line Summary** (25 words max)\n\n" ++
  "Episode Title: " ++ title ++ "\n\n" ++
  "Transcript (first 10000 chars):\n" ++ excerpt ++ "\n\n" ++
  "Respond in valid JSON only (no markdown):\n" ++
  "\x7b\n    \"tech_tags\": [\"tag1\", \"tag2\"],\n" ++
  "    \"business_tags\": [\"tag1\", \"tag2\"],\n" ++
  "    \"key_topics\": [\"topic1\", \"topic2\"],\n" ++
  "    \"guest\": \x7b\"name\": \"...\", \"role\": \"...\", \"company\": \"...\"\x7d,\n" ++
  "    \"summary\": \"...\"\n\x7d\n"

/-! ## Transcription (`transcribe_from_gcs`) -/

/-- The polling loop of `transcribe_from_gcs`:
`while not operation.done(): ... time.sleep(10)`.
`done k` tells whether the k-th poll of the long-running operation observes
completion.  `pollLoop done fuel k` runs the loop for at most `fuel` further
iterations starting at poll number `k`, returning the poll index at which the
loop exits.  The loop's ONLY exit is `operation.done()` becoming true: the
source contains no ceiling check, so exhausting any amount of fuel yields
`none` (still polling).  The `timeout=1800` on `operation.result` is reached
only after `done()` is already true. -/
def pollLoop (done : Nat → Bool) : Nat → Nat → Option Nat
  | 0, _ => none
  | fuel + 1, k => if done k then some k else pollLoop done fuel (k + 1)

/-- Elapsed time surfaced by the loop at poll `k`: 10 seconds per sleep. -/
def pollElapsed (k : Nat) : Nat := 10 * k

/-- Transcript assembly of `transcribe_from_gcs`:
`transcript = ""`, then `transcript += result.alternatives[0].transcript + "\n"`
for each result in order, then `transcript.strip()`.
`segs` is the ordered list of per-result best-alternative transcripts. -/
def transcriptFromResults (segs : List String) : String :=
  pyStrip (segs.foldl (fun acc r => acc ++ r ++ "\n") "")

/-- The specification's reading of the same computation: the ordered segments
concatenated with newline separators. -/
def newlineSeparated : List String → String
  | [] => ""
  | [s] => s
  | s :: rest => s ++ "\n" ++ newlineSeparated rest

/-! ## World, environment and call accounting -/

/-- The progress ledger `pipeline_progress.json`: two lists of episode stems,
appended to only when the corresponding stage succeeds (`load_progress`
initialises exactly these keys; there is no failure-status field). -/
structure Progress where
  transcribed : List String
  tagged : List String
deriving DecidableEq

/-- Durable state touched by the pipeline.
`files` is `episodes/*.mp3` (glob order), `flacs` the converted FLAC files,
`transcripts` maps an episode stem to `transcripts/<stem>.txt` content,
`tags` maps a stem to `tags/<stem>.json` content (kept in scan order),
`blobs` the object names present in the GCS bucket. -/
structure World where
  files : List String
  flacs : List String
  transcripts : List (String × String)
  tags : List (String × TagFileData)
  blobs : List String
  progress : Progress
deriving DecidableEq

/-- External collaborators, as oracles.  A `none` result models the call
raising an exception.
* `ffmpegOk`: does the ffmpeg conversion of this mp3 succeed (returncode 0)?
* `uploadOk`: does `blob.upload_from_filename` for this FLAC succeed?
* `speechResults`: for a `gs://` URI, the ordered best-alternative transcript
  segments of the completed long-running recognition (none = the operation
  raises);
* `genContent`: Gemini `model.generate_content(prompt).text`;
* `parseJson`: `json.loads` on the (fence-stripped) response text, shaped into
  the annotation record. -/
structure Env where
  ffmpegOk : String → Bool
  uploadOk : String → Bool
  speechResults : String → Option (List String)
  genContent : String → Option String
  parseJson : String → Option AnnotData

/-- Count of executor invocations that the spec forbids re-running once the
stage artifact exists (convert / upload / transcribe / annotate). -/
structure Calls where
  convert : Nat
  upload : Nat
  transcribe : Nat
  annotate : Nat
deriving DecidableEq

def Calls.zero : Calls := ⟨0, 0, 0, 0⟩

def Calls.add (a b : Calls) : Calls :=
  ⟨a.convert + b.convert, a.upload + b.upload,
   a.transcribe + b.transcribe, a.annotate + b.annotate⟩

instance : Add Calls := ⟨Calls.add⟩

def convertCall : Calls := ⟨1, 0, 0, 0⟩
def uploadCall : Calls := ⟨0, 1, 0, 0⟩
def transcribeCall : Calls := ⟨0, 0, 1, 0⟩
def annotateCall : Calls := ⟨0, 0, 0, 1⟩

/-! ## File-name derivations -/

/-- Model of `PurePath.stem` on a flat file name: the name up to (and
excluding) the last dot; the whole name when there is no dot. -/
def pyStem (s : String) : String :=
  match s.data.reverse.dropWhile (· ≠ '.') with
  | [] => s
  | _ :: rest => ⟨rest.reverse⟩

/-- `mp3_path.with_suffix(".flac")` on a flat name. -/
def withFlac (s : String) : String := pyStem s ++ ".flac"

/-- `blob_name = f"audio/{local_path.name}"`. -/
def blobNameOf (flacName : String) : String := "audio/" ++ flacName

/-- `f"gs://{GCS_BUCKET}/{blob_name}"`. -/
def gcsUri (flacName : String) : String :=
  "gs://mlops-podcast-audio/" ++ blobNameOf flacName

/-- Python `title.split()`: split on whitespace runs, dropping empty pieces. -/
def pyWords (s : String) : List String :=
  ((s.data.splitOnP isSp).filter (· ≠ [])).map (⟨·⟩)

/-- Python's substring test `needle in hay`, on character lists. -/
def containsSub (n : List Char) : List Char → Bool
  | [] => n.isEmpty
  | c :: t => n.isPrefixOf (c :: t) || containsSub n t

/-- The fallback file search in `process_episode`: first `episodes/*.mp3`
whose lowered name contains one of the first three lowered title words. -/
def findEpisodeFile (files : List String) (title : String) : Option String :=
  files.find? fun f =>
    ((pyWords title).take 3).any fun word =>
      containsSub (pyLower word).data (pyLower f).data

/-- One episode entry of `episodes_metadata.json`; only the fields
`process_episode` reads (`title`, `local_file`) are modelled. -/
structure Item where
  title : String
  localFile : Option String
deriving DecidableEq

/-- `ep.get("local_file")`, falling back to the glob heuristic. -/
def resolveLocalFile (w : World) (ep : Item) : Option String :=
  match ep.localFile with
  | some f => some f
  | none => findEpisodeFile w.files ep.title

/-! ## Stage executors and orchestrator -/

/-- `convert_to_flac`: skip when the FLAC already exists; otherwise invoke
ffmpeg (one convert call), failing (`None` in the source) when ffmpeg's
return code is non-zero. -/
def convertToFlac (env : Env) (w : World) (mp3 : String) :
    World × Calls × Option String :=
  let flacName := withFlac mp3
  if w.flacs.contains flacName then (w, Calls.zero, some flacName)
  else if env.ffmpegOk mp3 then
    ({ w with flacs := w.flacs ++ [flacName] }, convertCall, some flacName)
  else (w, convertCall, none)

/-- `upload_to_gcs`: skip when the blob already exists; otherwise upload
(one upload call); `none` models `upload_from_filename` raising. -/
def uploadToGcs (env : Env) (w : World) (flacName : String) :
    World × Calls × Option String :=
  if w.blobs.contains (blobNameOf flacName) then
    (w, Calls.zero, some (gcsUri flacName))
  else if env.uploadOk flacName then
    ({ w with blobs := w.blobs ++ [blobNameOf flacName] },
      uploadCall, some (gcsUri flacName))
  else (w, uploadCall, none)

/-- `transcribe_from_gcs` at the orchestration level: submit + poll + collect,
abstracted over the recognition oracle.  `none` models the remote operation
raising; otherwise the transcript is the stripped newline-joined segments. -/
def transcribeFromGcs (env : Env) (uri : String) : Option String :=
  (env.speechResults uri).map transcriptFromResults

/-- `if flac_path.exists(): flac_path.unlink()`. -/
def removeFlac (w : World) (flacName : String) : World :=
  { w with flacs := w.flacs.erase flacName }

/-- Step 1 of `process_episode` (lines 205-245): produce the transcript,
skipping everything when `transcripts/<base>.txt` already exists.  Returns
`none` when the episode's processing stops (`return False` in the source). -/
def transcribeStage (env : Env) (w : World) (base mp3 : String) :
    World × Calls × Option String :=
  match w.transcripts.lookup base with
  | some t => (w, Calls.zero, some t)
  | none =>
    match convertToFlac env w mp3 with
    | (w1, c1, none) => (w1, c1, none)
    | (w1, c1, some flacName) =>
      match uploadToGcs env w1 flacName with
      | (w2, c2, none) =>
        -- the `except` handler: log, unlink the FLAC, return False
        (removeFlac w2 flacName, c1 + c2, none)
      | (w2, c2, some uri) =>
        match transcribeFromGcs env uri with
        | none => (removeFlac w2 flacName, c1 + c2 + transcribeCall, none)
        | some t =>
          if t = "" then
            -- `if not transcript: return False` (before any write/unlink)
            (w2, c1 + c2 + transcribeCall, none)
          else
            let w3 := { w2 with
              transcripts := w2.transcripts ++ [(base, t)] }
            let w4 := removeFlac w3 flacName
            let w5 := { w4 with progress := { w4.progress with
              transcribed := w4.progress.transcribed ++ [base] } }
            (w5, c1 + c2 + transcribeCall, some t)

/-- Step 2 of `process_episode` (lines 247-265): annotate, skipping when
`tags/<base>.json` already exists.  A parse failure still writes the error
variant; only `generate_content` raising aborts the stage, and even then the
item is NOT failed (the source falls through to `return True`). -/
def tagStage (env : Env) (w : World) (base title transcript : String) :
    World × Calls :=
  match w.tags.lookup base with
  | some _ => (w, Calls.zero)
  | none =>
    match env.genContent (geminiPrompt title (pyTake 10000 transcript)) with
    | none => (w, annotateCall)
    | some resp =>
      let d := parseTagResponse env.parseJson resp
      ({ w with
          tags := w.tags ++ [(base, d)],
          progress := { w.progress with
            tagged := w.progress.tagged ++ [base] } },
        annotateCall)

/-- `process_episode`: resolve the audio file, then run the two stage blocks.
The `Bool` is the source's return value. -/
def processEpisode (env : Env) (w : World) (ep : Item) : World × Calls × Bool :=
  match resolveLocalFile w ep with
  | none => (w, Calls.zero, false)
  | some f =>
    if w.files.contains f then
      let base := pyStem f
      match transcribeStage env w base f with
      | (w1, c1, none) => (w1, c1, false)
      | (w1, c1, some t) =>
        let (w2, c2) := tagStage env w1 base ep.title t
        (w2, c1 + c2, true)
    else (w, Calls.zero, false)

/-- The orchestrator loop of `main` (lines 359-372): process every episode
sequentially; `process_episode` never propagates an exception in this model
(all its remote failures are caught inside it), so the `try/except/continue`
of the loop is the identity and every item is visited unconditionally. -/
def runBatch (env : Env) (w : World) (eps : List Item) : World × Calls :=
  eps.foldl
    (fun acc ep =>
      let r := processEpisode env acc.1 ep
      (r.1, acc.2 + r.2.1))
    (w, Calls.zero)

/-! ## Aggregator (`build_analysis_index`) -/

/-- `d[k] = d.get(k, 0) + 1` on an insertion-ordered dict, modelled as an
association list: an existing key is bumped in place, a new key is appended
(Python dicts preserve insertion order). -/
def bump : List (String × Nat) → String → List (String × Nat)
  | [], k => [(k, 1)]
  | (k', c) :: rest, k =>
    if k' = k then (k', c + 1) :: rest else (k', c) :: bump rest k

/-- One tag-list pass: `for tag in ...: d[tag.lower()] += 1`. -/
def bumpAll (m : List (String × Nat)) (tags : List String) : List (String × Nat) :=
  tags.foldl (fun m t => bump m (pyLower t)) m

/-- `d.get(k, 0)` on the modelled dict. -/
def getCount (m : List (String × Nat)) (k : String) : Nat :=
  match m.lookup k with
  | some c => c
  | none => 0

/-- Stable insertion of one entry into a count-descending list: the entry goes
in front of the first element whose count is `≤` its own, i.e. after every
strictly greater count and before every tie. -/
def insertByCount (x : String × Nat) : List (String × Nat) → List (String × Nat)
  | [] => [x]
  | y :: ys => if y.2 ≤ x.2 then x :: y :: ys else y :: insertByCount x ys

/-- `sorted(d.items(), key=lambda x: -x[1])`.  Python's `sorted` is a stable
sort; a stable sort for a total preorder is extensionally unique, so it is
modelled by the stable insertion sort over the dict's insertion order. -/
def sortByCountDesc (l : List (String × Nat)) : List (String × Nat) :=
  l.foldr insertByCount []

/-- One entry of the `episodes` audit list of `analysis/index.json`. -/
structure EpSummary where
  file : String
  summary : String
  guest : Guest
  tech_tags : List String
deriving DecidableEq

/-- The three frequency dicts accumulated by the scan loop. -/
structure CountMaps where
  tech : List (String × Nat)
  business : List (String × Nat)
  topics : List (String × Nat)
deriving DecidableEq

/-- One iteration of the `for tags_file in TAGS_DIR.glob("*.json")` loop:
`continue` on an error variant, otherwise count all three categories and
append the per-item summary. -/
def scanStep (acc : CountMaps × List EpSummary) (entry : String × TagFileData) :
    CountMaps × List EpSummary :=
  match entry.2 with
  | TagFileData.err _ _ => acc
  | TagFileData.ok d =>
    (⟨bumpAll acc.1.tech d.tech_tags,
      bumpAll acc.1.business d.business_tags,
      bumpAll acc.1.topics d.key_topics⟩,
     acc.2 ++ [⟨entry.1, d.summary, d.guest, d.tech_tags⟩])

/-- The scan over all tag artifacts, in scan order. -/
def scanTags (files : List (String × TagFileData)) : CountMaps × List EpSummary :=
  files.foldl scanStep (⟨[], [], []⟩, [])

/-- The aggregate index document `analysis/index.json`. -/
structure Analysis where
  generated_at : String
  episodes_analyzed : Nat
  top_tech_themes : List (String × Nat)
  top_business_themes : List (String × Nat)
  top_topics : List (String × Nat)
  episodes : List EpSummary
deriving DecidableEq

/-- `build_analysis_index`: scan, sort each category by descending frequency,
truncate to the fixed top-N (25 / 20 / 20).  `now` is `datetime.now()`. -/
def buildAnalysisIndex (now : String) (files : List (String × TagFileData)) :
    Analysis :=
  let s := scanTags files
  { generated_at := now
    episodes_analyzed := s.2.length
    top_tech_themes := (sortByCountDesc s.1.tech).take 25
    top_business_themes := (sortByCountDesc s.1.business).take 20
    top_topics := (sortByCountDesc s.1.topics).take 20
    episodes := s.2 }

/-- The running concatenation `transcript += seg + "\n"`, recursively. -/
def joinTrail : List String → String
  | [] => ""
  | s :: rest => s ++ "\n" ++ joinTrail rest

/-- Is the artifact the error variant (`"error" in data` in the source)? -/
def isErrFile : TagFileData → Bool
  | TagFileData.err _ _ => true
  | TagFileData.ok _ => false

/-- Entries that survive the `continue` of the scan loop. -/
def okEntry (e : String × TagFileData) : Bool := !isErrFile e.2

def okTechTags : TagFileData → List String
  | TagFileData.ok d => d.tech_tags
  | TagFileData.err _ _ => []

def okBusinessTags : TagFileData → List String
  | TagFileData.ok d => d.business_tags
  | TagFileData.err _ _ => []

def okTopics : TagFileData → List String
  | TagFileData.ok d => d.key_topics
  | TagFileData.err _ _ => []

/-- All technology-tag occurrences across the valid (non-error) artifacts,
in scan order. -/
def techOccurrences (files : List (String × TagFileData)) : List String :=
  (files.map (fun e => okTechTags e.2)).flatten

def businessOccurrences (files : List (String × TagFileData)) : List String :=
  (files.map (fun e => okBusinessTags e.2)).flatten

def topicOccurrences (files : List (String × TagFileData)) : List String :=
  (files.map (fun e => okTopics e.2)).flatten

/-- The per-item summary appended for a valid artifact. -/
def summaryOfOk (e : String × TagFileData) : EpSummary :=
  match e.2 with
  | TagFileData.ok d => ⟨e.1, d.summary, d.guest, d.tech_tags⟩
  | TagFileData.err _ _ => ⟨e.1, "", ⟨"", "", ""⟩, []⟩

/-! ## Concrete instances used as claim scenarios and witnesses -/

/-- The per-item skip condition of claim C1: either the item resolves no
audio file (nothing is invoked at all), or its transcript artifact and its
tags artifact both already exist on durable storage. -/
def artifactsPresent (w : World) (ep : Item) : Bool :=
  match resolveLocalFile w ep with
  | none => true
  | some f =>
    (w.transcripts.lookup (pyStem f)).isSome && (w.tags.lookup (pyStem f)).isSome

/-- The explicitly recorded audio file of an item (claim C3's items all carry
one). -/
def epFile (ep : Item) : String := ep.localFile.getD ""

/-- A parsed annotation used in concrete scenarios. -/
def annotOne : AnnotData :=
  ⟨["MLflow"], ["pricing"], ["mlops"], ⟨"Jo", "CTO", "Acme"⟩, "a summary"⟩

/-- Spec scenario for claim C6: two items share the tag in the case variants
"MLflow" and "mlflow". -/
def mlflowScenario : List (String × TagFileData) :=
  [("e1", TagFileData.ok ⟨["MLflow"], [], [], ⟨"", "", ""⟩, ""⟩),
   ("e2", TagFileData.ok ⟨["mlflow"], [], [], ⟨"", "", ""⟩, ""⟩)]

/-- Scenario for claim C8: a single artifact, which is an error variant. -/
def errOnlyScenario : List (String × TagFileData) :=
  [("ep1", TagFileData.err "Failed to parse response" "not json")]

/-- Fresh world holding two raw episodes and nothing else. -/
def wEmpty : World := ⟨["ep1.mp3", "ep2.mp3"], [], [], [], [], ⟨[], []⟩⟩

/-- World in which episode `ep1` has every stage artifact on durable storage. -/
def wDone : World :=
  ⟨["ep1.mp3"], [], [("ep1", "a transcript")],
   [("ep1", TagFileData.ok annotOne)], ["audio/ep1.flac"], ⟨["ep1"], ["ep1"]⟩⟩

/-- Environment in which every collaborator succeeds. -/
def envHappy : Env :=
  ⟨fun _ => true, fun _ => true, fun _ => some ["hello", "world"],
   fun _ => some "a response", fun _ => some annotOne⟩

/-- Environment in which exactly episode `ep1`'s recognition operation raises
and every other collaborator call succeeds. -/
def envRaise1 : Env :=
  { envHappy with
    speechResults := fun u => if u = gcsUri "ep1.flac" then none else some ["seg"] }

def itemOne : Item := ⟨"Episode One", some "ep1.mp3"⟩
def itemTwo : Item := ⟨"Episode Two", some "ep2.mp3"⟩

/-- Environment whose recognition operation completes with an empty result
list (used for claim C9's empty-transcript case). -/
def envEmptySeg : Env := { envHappy with speechResults := fun _ => some [] }

/-- A concrete `json.loads` oracle that accepts exactly the payload
`"payload"` (used for claim C10's witness). -/
def fenceDemoParse (s : String) : Option AnnotData :=
  if s = "payload" then some annotOne else none

/-! ## Basic algebra of the call counter -/

theorem Calls.zero_add (c : Calls) : Calls.zero + c = c := by
  cases c
  show Calls.add Calls.zero _ = _
  simp [Calls.add, Calls.zero]

theorem Calls.add_zero (c : Calls) : c + Calls.zero = c := by
  cases c
  show Calls.add _ Calls.zero = _
  simp [Calls.add, Calls.zero]

/-! ## Association-list helper lemmas -/

theorem lookup_append_ne {α : Type} {k k' : String} {v : α}
    (l : List (String × α)) (h : k ≠ k') :
    (l ++ [(k', v)]).lookup k = l.lookup k := by
  rw [List.lookup_append]
  have h1 : ([(k', v)] : List (String × α)).lookup k = none := by
    rw [List.lookup_cons]
    have : (k == k') = false := by simpa using h
    rw [this]
    rfl
  rw [h1, Option.or_none]

theorem lookup_append_self {α : Type} {k : String} {v : α}
    (l : List (String × α)) (h : l.lookup k = none) :
    (l ++ [(k, v)]).lookup k = some v := by
  rw [List.lookup_append, h, Option.none_or]
  simp [List.lookup_cons]

/-! ## Whitespace stripping lemmas -/

theorem dropWhile_isSp_eq_self {l : List Char} {c : Char}
    (hc : l.head? = some c) (h : isSp c = false) : l.dropWhile isSp = l := by
  cases l with
  | nil => rfl
  | cons a t =>
    have : a = c := by simpa using hc
    subst this
    simp [List.dropWhile_cons, h]

theorem stripChars_eq_self {l : List Char} {c d : Char}
    (hh : l.head? = some c) (hc : isSp c = false)
    (hl : l.getLast? = some d) (hd : isSp d = false) : stripChars l = l := by
  unfold stripChars
  have h1 : l.reverse.dropWhile isSp = l.reverse :=
    dropWhile_isSp_eq_self (by rw [List.head?_reverse, hl]) hd
  rw [h1, List.reverse_reverse]
  exact dropWhile_isSp_eq_self hh hc

theorem stripChars_append_nl (l : List Char) :
    stripChars (l ++ ['\n']) = stripChars l := by
  unfold stripChars
  rw [List.reverse_append]
  simp only [List.reverse_cons, List.reverse_nil, List.nil_append,
    List.singleton_append, List.dropWhile_cons]
  norm_num [isSp]

theorem pyStrip_append_nl (s : String) : pyStrip (s ++ "\n") = pyStrip s := by
  unfold pyStrip
  apply String.ext
  show stripChars (s ++ "\n").data = stripChars s.data
  rw [String.data_append]
  exact stripChars_append_nl s.data

/-! ## Transcript assembly lemmas -/

theorem foldl_append_nl (segs : List String) (acc : String) :
    segs.foldl (fun a r => a ++ r ++ "\n") acc = acc ++ joinTrail segs := by
  induction segs generalizing acc with
  | nil =>
    show acc = acc ++ ""
    apply String.ext
    simp [joinTrail]
  | cons s rest ih =>
    show List.foldl _ (acc ++ s ++ "\n") rest = _
    rw [ih]
    apply String.ext
    simp [joinTrail]

theorem joinTrail_eq_newlineSeparated (segs : List String) (h : segs ≠ []) :
    joinTrail segs = newlineSeparated segs ++ "\n" := by
  induction segs with
  | nil => exact absurd rfl h
  | cons s rest ih =>
    cases rest with
    | nil =>
      show s ++ "\n" ++ "" = s ++ "\n"
      apply String.ext
      simp
    | cons t rest' =>
      show s ++ "\n" ++ joinTrail (t :: rest') = (s ++ "\n" ++ newlineSeparated (t :: rest')) ++ "\n"
      rw [ih (by simp)]
      apply String.ext
      simp

theorem transcriptFromResults_eq_strip (segs : List String) (h : segs ≠ []) :
    transcriptFromResults segs = pyStrip (newlineSeparated segs) := by
  unfold transcriptFromResults
  rw [foldl_append_nl, joinTrail_eq_newlineSeparated segs h]
  have : "" ++ (newlineSeparated segs ++ "\n") = newlineSeparated segs ++ "\n" := by
    apply String.ext; simp
  rw [this, pyStrip_append_nl]

/-! ## Frequency-count lemmas (aggregator) -/

theorem getCount_nil (k : String) : getCount [] k = 0 := rfl

theorem getCount_cons (a : String) (c : Nat) (rest : List (String × Nat)) (k : String) :
    getCount ((a, c) :: rest) k = if k = a then c else getCount rest k := by
  unfold getCount
  rw [List.lookup_cons]
  by_cases h : k = a
  · have hb : (k == a) = true := by simpa using h
    rw [hb, if_pos h]
  · have hb : (k == a) = false := by simpa using h
    rw [hb, if_neg h]

theorem getCount_bump (m : List (String × Nat)) (k k' : String) :
    getCount (bump m k') k = getCount m k + if k = k' then 1 else 0 := by
  induction m with
  | nil =>
    show getCount [(k', 1)] k = getCount [] k + _
    rw [getCount_cons, getCount_nil]
    by_cases h : k = k' <;> simp [h]
  | cons p rest ih =>
    obtain ⟨a, c⟩ := p
    show getCount (if a = k' then (a, c + 1) :: rest else (a, c) :: bump rest k') k = _
    by_cases ha : a = k'
    · subst ha
      rw [if_pos rfl, getCount_cons, getCount_cons]
      by_cases hk : k = a <;> simp [hk]
    · rw [if_neg ha, getCount_cons, getCount_cons]
      by_cases hk : k = a
      · subst hk
        simp [ha]
      · simp [hk, ih]

theorem getCount_bumpAll (m : List (String × Nat)) (tags : List String) (k : String) :
    getCount (bumpAll m tags) k = getCount m k + (tags.map pyLower).count k := by
  induction tags generalizing m with
  | nil => simp [bumpAll]
  | cons t rest ih =>
    show getCount (bumpAll (bump m (pyLower t)) rest) k = _
    rw [ih, getCount_bump]
    rw [List.map_cons, List.count_cons]
    have h2 : (if (pyLower t == k) = true then 1 else 0) = if k = pyLower t then 1 else 0 := by
      by_cases h : k = pyLower t
      · simp [h]
      · have : (pyLower t == k) = false := by
          simpa using fun hh => h hh.symm
        simp [h, this]
    rw [h2]
    omega

/-! ## Stable sort lemmas -/

theorem mem_insertByCount {z x : String × Nat} {l : List (String × Nat)} :
    z ∈ insertByCount x l ↔ z = x ∨ z ∈ l := by
  induction l with
  | nil => simp [insertByCount]
  | cons y ys ih =>
    show z ∈ (if y.2 ≤ x.2 then x :: y :: ys else y :: insertByCount x ys) ↔ _
    by_cases h : y.2 ≤ x.2
    · simp [h]
    · simp only [if_neg h, List.mem_cons, ih]
      tauto

theorem pairwise_insertByCount (x : String × Nat) (l : List (String × Nat))
    (h : l.Pairwise (fun a b => b.2 ≤ a.2)) :
    (insertByCount x l).Pairwise (fun a b => b.2 ≤ a.2) := by
  induction l with
  | nil => simp [insertByCount]
  | cons y ys ih =>
    show (if y.2 ≤ x.2 then x :: y :: ys else y :: insertByCount x ys).Pairwise _
    rcases List.pairwise_cons.mp h with ⟨hy, hys⟩
    by_cases hc : y.2 ≤ x.2
    · rw [if_pos hc]
      refine List.pairwise_cons.mpr ⟨?_, h⟩
      intro z hz
      rcases List.mem_cons.mp hz with rfl | hz'
      · exact hc
      · exact le_trans (hy z hz') hc
    · rw [if_neg hc]
      refine List.pairwise_cons.mpr ⟨?_, ih hys⟩
      intro z hz
      rcases mem_insertByCount.mp hz with rfl | hz'
      · exact le_of_lt (lt_of_not_le hc)
      · exact hy z hz'

theorem filter_insertByCount (x : String × Nat) (l : List (String × Nat))
    (h : l.Pairwise (fun a b => b.2 ≤ a.2)) (c : Nat) :
    (insertByCount x l).filter (fun p => p.2 = c) =
      if x.2 = c then x :: l.filter (fun p => p.2 = c)
      else l.filter (fun p => p.2 = c) := by
  induction l with
  | nil =>
    show [x].filter _ = _
    by_cases hx : x.2 = c <;> simp [List.filter_cons, hx]
  | cons y ys ih =>
    rcases List.pairwise_cons.mp h with ⟨hy, hys⟩
    show (if y.2 ≤ x.2 then x :: y :: ys else y :: insertByCount x ys).filter _ = _
    by_cases hc : y.2 ≤ x.2
    · rw [if_pos hc]
      by_cases hx : x.2 = c <;> simp [List.filter_cons, hx]
    · rw [if_neg hc]
      have hlt : x.2 < y.2 := lt_of_not_le hc
      by_cases hy2 : y.2 = c
      · have hx : ¬(x.2 = c) := by omega
        simp [List.filter_cons, hy2, hx, ih hys]
      · by_cases hx : x.2 = c <;>
          simp [List.filter_cons, hy2, hx, ih hys]

theorem sortByCountDesc_pairwise (l : List (String × Nat)) :
    (sortByCountDesc l).Pairwise (fun a b => b.2 ≤ a.2) := by
  induction l with
  | nil => simp [sortByCountDesc]
  | cons x xs ih =>
    show (insertByCount x (sortByCountDesc xs)).Pairwise _
    exact pairwise_insertByCount x _ ih

theorem sortByCountDesc_filter (l : List (String × Nat)) (c : Nat) :
    (sortByCountDesc l).filter (fun p => p.2 = c) = l.filter (fun p => p.2 = c) := by
  induction l with
  | nil => rfl
  | cons x xs ih =>
    show (insertByCount x (sortByCountDesc xs)).filter _ = _
    rw [filter_insertByCount x _ (sortByCountDesc_pairwise xs) c]
    by_cases hx : x.2 = c <;> simp [List.filter_cons, hx, ih]

/-! ## Aggregator scan lemmas -/

theorem bumpAll_append (m : List (String × Nat)) (xs ys : List String) :
    bumpAll m (xs ++ ys) = bumpAll (bumpAll m xs) ys := by
  unfold bumpAll
  exact List.foldl_append _ _ _ _

theorem scanStep_characterized (files : List (String × TagFileData)) :
    ∀ acc : CountMaps × List EpSummary,
    (files.foldl scanStep acc).1.tech = bumpAll acc.1.tech (techOccurrences files) ∧
    (files.foldl scanStep acc).1.business = bumpAll acc.1.business (businessOccurrences files) ∧
    (files.foldl scanStep acc).1.topics = bumpAll acc.1.topics (topicOccurrences files) ∧
    (files.foldl scanStep acc).2 = acc.2 ++ (files.filter okEntry).map summaryOfOk := by
  induction files with
  | nil =>
    intro acc
    simp [techOccurrences, businessOccurrences, topicOccurrences, bumpAll]
  | cons e fs ih =>
    intro acc
    obtain ⟨nm, data⟩ := e
    have hocc : techOccurrences ((nm, data) :: fs) =
        okTechTags data ++ techOccurrences fs := by
      simp [techOccurrences]
    have hocc2 : businessOccurrences ((nm, data) :: fs) =
        okBusinessTags data ++ businessOccurrences fs := by
      simp [businessOccurrences]
    have hocc3 : topicOccurrences ((nm, data) :: fs) =
        okTopics data ++ topicOccurrences fs := by
      simp [topicOccurrences]
    rw [List.foldl_cons]
    cases data with
    | err m r =>
      have hse : scanStep acc (nm, TagFileData.err m r) = acc := rfl
      rw [hse]
      rcases ih acc with ⟨h1, h2, h3, h4⟩
      refine ⟨?_, ?_, ?_, ?_⟩
      · rw [h1, hocc]; rfl
      · rw [h2, hocc2]; rfl
      · rw [h3, hocc3]; rfl
      · rw [h4]
        simp [List.filter_cons, okEntry, isErrFile]
    | ok d =>
      have hstep : scanStep acc (nm, TagFileData.ok d) =
          (⟨bumpAll acc.1.tech d.tech_tags,
            bumpAll acc.1.business d.business_tags,
            bumpAll acc.1.topics d.key_topics⟩,
           acc.2 ++ [⟨nm, d.summary, d.guest, d.tech_tags⟩]) := rfl
      rcases ih (scanStep acc (nm, TagFileData.ok d)) with ⟨h1, h2, h3, h4⟩
      refine ⟨?_, ?_, ?_, ?_⟩
      · rw [h1, hstep, hocc, bumpAll_append]; rfl
      · rw [h2, hstep, hocc2, bumpAll_append]; rfl
      · rw [h3, hstep, hocc3, bumpAll_append]; rfl
      · rw [h4, hstep]
        simp [List.filter_cons, okEntry, isErrFile, summaryOfOk]

theorem scanTags_skips_err (files : List (String × TagFileData)) :
    ∀ acc, files.foldl scanStep acc = (files.filter okEntry).foldl scanStep acc := by
  induction files with
  | nil => intro acc; rfl
  | cons e fs ih =>
    intro acc
    obtain ⟨nm, data⟩ := e
    cases data with
    | err m r =>
      show fs.foldl scanStep acc = _
      rw [ih]
      simp [List.filter_cons, okEntry, isErrFile]
    | ok d =>
      show fs.foldl scanStep (scanStep acc (nm, TagFileData.ok d)) = _
      rw [ih]
      simp [List.filter_cons, okEntry, isErrFile]

/-! ## Stage executor frame lemmas -/

theorem convertToFlac_frame (env : Env) (w : World) (mp3 : String) :
    (convertToFlac env w mp3).1.files = w.files ∧
    (convertToFlac env w mp3).1.transcripts = w.transcripts ∧
    (convertToFlac env w mp3).1.tags = w.tags ∧
    (convertToFlac env w mp3).1.blobs = w.blobs ∧
    (convertToFlac env w mp3).1.progress = w.progress := by
  by_cases hc : withFlac mp3 ∈ w.flacs
  · simp [convertToFlac, hc]
  · by_cases hf : env.ffmpegOk mp3 <;> simp [convertToFlac, hc, hf]

theorem uploadToGcs_frame (env : Env) (w : World) (flacName : String) :
    (uploadToGcs env w flacName).1.files = w.files ∧
    (uploadToGcs env w flacName).1.transcripts = w.transcripts ∧
    (uploadToGcs env w flacName).1.tags = w.tags ∧
    (uploadToGcs env w flacName).1.flacs = w.flacs ∧
    (uploadToGcs env w flacName).1.progress = w.progress := by
  by_cases hc : blobNameOf flacName ∈ w.blobs
  · simp [uploadToGcs, hc]
  · by_cases hu : env.uploadOk flacName <;> simp [uploadToGcs, hc, hu]

theorem removeFlac_frame (w : World) (flacName : String) :
    (removeFlac w flacName).files = w.files ∧
    (removeFlac w flacName).transcripts = w.transcripts ∧
    (removeFlac w flacName).tags = w.tags ∧
    (removeFlac w flacName).blobs = w.blobs ∧
    (removeFlac w flacName).progress = w.progress :=
  ⟨rfl, rfl, rfl, rfl, rfl⟩

/-- On every failure exit of the transcription stage block, the transcript
store, the tag store, the file listing and the progress ledger are exactly
as before: nothing is written and nothing is recorded. -/
theorem transcribeStage_fail_frame (env : Env) (w : World) (base mp3 : String)
    (h : (transcribeStage env w base mp3).2.2 = none) :
    (transcribeStage env w base mp3).1.progress = w.progress ∧
    (transcribeStage env w base mp3).1.transcripts = w.transcripts ∧
    (transcribeStage env w base mp3).1.tags = w.tags ∧
    (transcribeStage env w base mp3).1.files = w.files := by
  revert h
  unfold transcribeStage
  split
  · intro h
    cases h
  · rename_i hlk
    split
    · rename_i w1 c1 heq
      intro _
      have hf := convertToFlac_frame env w mp3
      rw [heq] at hf
      exact ⟨hf.2.2.2.2, hf.2.1, hf.2.2.1, hf.1⟩
    · rename_i w1 c1 flacName heq
      have hf := convertToFlac_frame env w mp3
      rw [heq] at hf
      split
      · rename_i w2 c2 hequ
        intro _
        have hu := uploadToGcs_frame env w1 flacName
        rw [hequ] at hu
        refine ⟨?_, ?_, ?_, ?_⟩
        · exact (removeFlac_frame w2 flacName).2.2.2.2.trans
            (hu.2.2.2.2.trans hf.2.2.2.2)
        · exact (removeFlac_frame w2 flacName).2.1.trans
            (hu.2.1.trans hf.2.1)
        · exact (removeFlac_frame w2 flacName).2.2.1.trans
            (hu.2.2.1.trans hf.2.2.1)
        · exact (removeFlac_frame w2 flacName).1.trans (hu.1.trans hf.1)
      · rename_i w2 c2 uri hequ
        have hu := uploadToGcs_frame env w1 flacName
        rw [hequ] at hu
        split
        · intro _
          refine ⟨?_, ?_, ?_, ?_⟩
          · exact (removeFlac_frame w2 flacName).2.2.2.2.trans
              (hu.2.2.2.2.trans hf.2.2.2.2)
          · exact (removeFlac_frame w2 flacName).2.1.trans
              (hu.2.1.trans hf.2.1)
          · exact (removeFlac_frame w2 flacName).2.2.1.trans
              (hu.2.2.1.trans hf.2.2.1)
          · exact (removeFlac_frame w2 flacName).1.trans (hu.1.trans hf.1)
        · rename_i t heqt
          split
          · intro _
            exact ⟨hu.2.2.2.2.trans hf.2.2.2.2, hu.2.1.trans hf.2.1,
              hu.2.2.1.trans hf.2.2.1, hu.1.trans hf.1⟩
          · intro h
            cases h

/-! ## Claim theorems -/

/-- Claim C2 (evidence for the code bug): the transcription polling loop has
no hard ceiling timeout.  On an operation that never completes it is still
polling after any number of iterations, and the loop's only exit is
`operation.done()` turning true — there is no `TransientError` (or any other
failure) exit at all.  The `timeout=1800` of the source is attached to
`operation.result`, which runs only after `done()` already returned true. -/
theorem transcribe_polling_never_times_out :
    (∀ fuel k, pollLoop (fun _ => false) fuel k = none) ∧
    (∀ (done : Nat → Bool) (fuel k j : Nat),
      pollLoop done fuel k = some j → done j = true) := by
  constructor
  · intro fuel
    induction fuel with
    | zero => intro k; rfl
    | succ n ih =>
      intro k
      simpa [pollLoop] using ih (k + 1)
  · intro done fuel
    induction fuel with
    | zero =>
      intro k j h
      cases h
    | succ n ih =>
      intro k j h
      by_cases hd : done k
      · have : some k = some j := by simpa [pollLoop, hd] using h
        cases this
        exact hd
      · exact ih (k + 1) j (by simpa [pollLoop, hd] using h)

/-- Witness for claim C2's theorem: after 300 further polls of a
never-completing operation the loop is still running, and the loop exit
observed on a completing operation is exactly a successful `done()`. -/
theorem transcribe_polling_witness :
    pollLoop (fun _ => false) 300 0 = none ∧
    (fun k => decide (k = 3)) 3 = true :=
  ⟨transcribe_polling_never_times_out.1 300 0,
   transcribe_polling_never_times_out.2 (fun k => decide (k = 3)) 10 0 3 (by decide)⟩

/-- Claim C7: when the annotation response is not parseable JSON,
`tag_episode` neither raises nor discards the response: it returns the
explicit error variant with an error message and the raw (fence-stripped,
500-character-truncated) response text. -/
theorem annotate_parse_failure_returns_error_variant
    (parseJson : String → Option AnnotData) (responseText : String)
    (h : parseJson (stripFence (pyStrip responseText)) = none) :
    parseTagResponse parseJson responseText =
      TagFileData.err "Failed to parse response"
        (pyTake 500 (stripFence (pyStrip responseText))) := by
  have hdef : parseTagResponse parseJson responseText =
      match parseJson (stripFence (pyStrip responseText)) with
      | some d => TagFileData.ok d
      | none => TagFileData.err "Failed to parse response"
          (pyTake 500 (stripFence (pyStrip responseText))) := rfl
  rw [hdef, h]

/-- Witness for claim C7's theorem: the spec's example — response text
`"not json"` yields the record with the error field and `raw = "not json"`. -/
theorem annotate_parse_failure_witness :
    parseTagResponse (fun _ => none) "not json" =
      TagFileData.err "Failed to parse response" "not json" := by
  rw [annotate_parse_failure_returns_error_variant (fun _ => none) "not json" rfl]
  decide

/-- Claim C5: the ranked lists are deterministic with the documented
tie-break.  For each category, the index's ranked list is the stable
descending sort of the frequency dict taken to its top-N; the sort is
(a) non-increasing in frequency and (b) stable: for every frequency value,
the tied entries appear in exactly their dict insertion order — which is
first-encountered order of the annotation scan (`sorted` with key `-count`
is Python's stable sort, modelled by the extensionally unique stable
descending sort).  The aggregator is a pure function of the scanned artifact
list, so two runs over the same artifacts yield identical ranked lists. -/
theorem aggregator_ranking_deterministic_stable (now : String)
    (files : List (String × TagFileData)) :
    ((buildAnalysisIndex now files).top_tech_themes =
        (sortByCountDesc (scanTags files).1.tech).take 25 ∧
      (sortByCountDesc (scanTags files).1.tech).Pairwise (fun a b => b.2 ≤ a.2) ∧
      ∀ c, (sortByCountDesc (scanTags files).1.tech).filter (fun p => p.2 = c) =
        (scanTags files).1.tech.filter (fun p => p.2 = c)) ∧
    ((buildAnalysisIndex now files).top_business_themes =
        (sortByCountDesc (scanTags files).1.business).take 20 ∧
      (sortByCountDesc (scanTags files).1.business).Pairwise (fun a b => b.2 ≤ a.2) ∧
      ∀ c, (sortByCountDesc (scanTags files).1.business).filter (fun p => p.2 = c) =
        (scanTags files).1.business.filter (fun p => p.2 = c)) ∧
    ((buildAnalysisIndex now files).top_topics =
        (sortByCountDesc (scanTags files).1.topics).take 20 ∧
      (sortByCountDesc (scanTags files).1.topics).Pairwise (fun a b => b.2 ≤ a.2) ∧
      ∀ c, (sortByCountDesc (scanTags files).1.topics).filter (fun p => p.2 = c) =
        (scanTags files).1.topics.filter (fun p => p.2 = c)) :=
  ⟨⟨rfl, sortByCountDesc_pairwise _, fun c => sortByCountDesc_filter _ c⟩,
   ⟨rfl, sortByCountDesc_pairwise _, fun c => sortByCountDesc_filter _ c⟩,
   ⟨rfl, sortByCountDesc_pairwise _, fun c => sortByCountDesc_filter _ c⟩⟩

/-- Claim C6: every tag/topic occurrence is counted under its case-folded
key — the count stored for key `k` equals the number of occurrences (across
all valid artifacts) whose lowered text is `k` — and the ranked categories
are truncated to a fixed top-N of 25 / 20 / 20.  On the spec's scenario
(tags "MLflow" and "mlflow" on two items) the tech frequency dict is exactly
the single entry `("mlflow", 2)`. -/
theorem aggregator_casefold_counts_and_truncation :
    (∀ files k, getCount (scanTags files).1.tech k =
        ((techOccurrences files).map pyLower).count k) ∧
    (∀ files k, getCount (scanTags files).1.business k =
        ((businessOccurrences files).map pyLower).count k) ∧
    (∀ files k, getCount (scanTags files).1.topics k =
        ((topicOccurrences files).map pyLower).count k) ∧
    (∀ now files, (buildAnalysisIndex now files).top_tech_themes.length ≤ 25 ∧
      (buildAnalysisIndex now files).top_business_themes.length ≤ 20 ∧
      (buildAnalysisIndex now files).top_topics.length ≤ 20) ∧
    (scanTags mlflowScenario).1.tech = [("mlflow", 2)] := by
  refine ⟨?_, ?_, ?_, ?_, by decide⟩
  · intro files k
    have h := (scanStep_characterized files (⟨[], [], []⟩, [])).1
    show getCount (files.foldl scanStep (⟨[], [], []⟩, [])).1.tech k = _
    rw [h, getCount_bumpAll]
    simp [getCount_nil]
  · intro files k
    have h := (scanStep_characterized files (⟨[], [], []⟩, [])).2.1
    show getCount (files.foldl scanStep (⟨[], [], []⟩, [])).1.business k = _
    rw [h, getCount_bumpAll]
    simp [getCount_nil]
  · intro files k
    have h := (scanStep_characterized files (⟨[], [], []⟩, [])).2.2.1
    show getCount (files.foldl scanStep (⟨[], [], []⟩, [])).1.topics k = _
    rw [h, getCount_bumpAll]
    simp [getCount_nil]
  · intro now files
    refine ⟨?_, ?_, ?_⟩
    · show ((sortByCountDesc (scanTags files).1.tech).take 25).length ≤ 25
      rw [List.length_take]
      exact min_le_left _ _
    · show ((sortByCountDesc (scanTags files).1.business).take 20).length ≤ 20
      rw [List.length_take]
      exact min_le_left _ _
    · show ((sortByCountDesc (scanTags files).1.topics).take 20).length ≤ 20
      rw [List.length_take]
      exact min_le_left _ _

/-- Claim C8 counterexample: with a lone error-variant artifact, the
per-item summaries list of the index is empty — the erroneous annotation is
NOT included in the audit trail, refuting the claim's inclusion part (its
exclusion-from-counts part is proved in the amended theorem). -/
theorem error_annot_audit_trail_counterexample :
    (buildAnalysisIndex "2026-10-12T00:00:00" errOnlyScenario).episodes = [] ∧
    (buildAnalysisIndex "2026-10-12T00:00:00" errOnlyScenario).episodes_analyzed = 0 :=
  ⟨rfl, rfl⟩

/-- Claim C8 (amended): annotation artifacts marked as error variants are
excluded from the frequency counts and from the items-analyzed total, and
are ALSO excluded from the per-item summaries audit list (the scan loop
`continue`s before appending); the aggregator is a total function of the
artifact list, so their presence never crashes it — the whole index equals
the index built from the valid artifacts alone. -/
theorem error_annots_excluded_everywhere (now : String)
    (files : List (String × TagFileData)) :
    (buildAnalysisIndex now files).episodes_analyzed =
      (files.filter okEntry).length ∧
    (buildAnalysisIndex now files).episodes =
      (files.filter okEntry).map summaryOfOk ∧
    buildAnalysisIndex now files = buildAnalysisIndex now (files.filter okEntry) := by
  have h4 := (scanStep_characterized files (⟨[], [], []⟩, [])).2.2.2
  have hscan : scanTags files = scanTags (files.filter okEntry) := by
    unfold scanTags
    exact scanTags_skips_err files _
  refine ⟨?_, ?_, ?_⟩
  · show (scanTags files).2.length = _
    unfold scanTags
    rw [h4]
    simp
  · show (scanTags files).2 = _
    unfold scanTags
    rw [h4]
    simp
  · unfold buildAnalysisIndex
    rw [hscan]

/-- Claim C9: (a) the transcript produced by `transcribe_from_gcs` is the
ordered recognition segments concatenated with newline separators (for
segments without leading/trailing whitespace — the final `strip()` only
touches the two ends); (b) an empty transcript is treated as a failure:
the stage exits with `return False` before writing any transcript artifact
and before recording any progress, so the item never proceeds. -/
theorem transcript_newline_join_and_empty_failure :
    (∀ segs : List String, segs ≠ [] →
      pyStrip (newlineSeparated segs) = newlineSeparated segs →
      transcriptFromResults segs = newlineSeparated segs) ∧
    (∀ (env : Env) (w : World) (base mp3 : String) (segs : List String),
      w.transcripts.lookup base = none →
      env.ffmpegOk mp3 = true →
      env.uploadOk (withFlac mp3) = true →
      env.speechResults (gcsUri (withFlac mp3)) = some segs →
      transcriptFromResults segs = "" →
      (transcribeStage env w base mp3).2.2 = none ∧
      (transcribeStage env w base mp3).1.transcripts = w.transcripts ∧
      (transcribeStage env w base mp3).1.progress = w.progress) := by
  constructor
  · intro segs h1 h2
    rw [transcriptFromResults_eq_strip segs h1, h2]
  · intro env w base mp3 segs hlk hff hup hsp hempty
    have h : (transcribeStage env w base mp3).2.2 = none := by
      unfold transcribeStage convertToFlac uploadToGcs transcribeFromGcs
      rw [hlk]
      by_cases hc : withFlac mp3 ∈ w.flacs <;>
        by_cases hb : blobNameOf (withFlac mp3) ∈ w.blobs <;>
          simp [hc, hb, hff, hup, hsp, hempty]
    have hframe := transcribeStage_fail_frame env w base mp3 h
    exact ⟨h, hframe.2.1, hframe.1⟩

/-- Witness for claim C9's theorem: two segments join to "hello\nworld",
and a recognition run completing with an empty result list makes the stage
fail with nothing written. -/
theorem transcript_newline_witness :
    transcriptFromResults ["hello", "world"] = newlineSeparated ["hello", "world"] ∧
    (transcribeStage envEmptySeg wEmpty "ep1" "ep1.mp3").2.2 = none := by
  constructor
  · exact transcript_newline_join_and_empty_failure.1 ["hello", "world"]
      (by decide) (by decide)
  · exact (transcript_newline_join_and_empty_failure.2 envEmptySeg wEmpty
      "ep1" "ep1.mp3" [] rfl rfl rfl rfl (by decide)).1

/-- Claim C4 counterexample: a concrete run in which the Transcribe executor
fails (the remote operation raises): processing of the item stops
(`return False`), yet the Progress Ledger after the run equals the ledger
before it — nothing at all is appended, no `failed` StageRecord exists (the
ledger's only keys are the two success lists, both still empty). -/
theorem failed_stage_record_counterexample :
    (processEpisode envRaise1 wEmpty itemOne).2.2 = false ∧
    (processEpisode envRaise1 wEmpty itemOne).1.progress = wEmpty.progress ∧
    (processEpisode envRaise1 wEmpty itemOne).1.progress.transcribed = [] ∧
    (processEpisode envRaise1 wEmpty itemOne).1.progress.tagged = [] := by
  refine ⟨?_, ?_, ?_, ?_⟩ <;> decide

/-- Claim C4 (amended): when processing of an item fails at any stage, the
orchestrator logs and moves on WITHOUT writing anything to the Progress
Ledger: the ledger after the failed item equals the ledger before it.  The
ledger records only successful completions (the `transcribed` and `tagged`
lists appended in the success paths); it has no `failed` status at all. -/
theorem stage_failure_leaves_ledger_unchanged (env : Env) (w : World) (ep : Item)
    (h : (processEpisode env w ep).2.2 = false) :
    (processEpisode env w ep).1.progress = w.progress := by
  revert h
  unfold processEpisode
  split
  · intro _
    rfl
  · rename_i f hres
    split
    · dsimp only
      split
      · rename_i w1 c1 heq
        intro _
        have hframe := transcribeStage_fail_frame env w (pyStem f) f
          (by rw [heq])
        rw [heq] at hframe
        exact hframe.1
      · rename_i w1 c1 t heq
        intro h
        cases h
    · intro _
      rfl

/-- Witness for claim C4's amended theorem: the concrete failing run of the
counterexample, through the theorem. -/
theorem stage_failure_ledger_witness :
    (processEpisode envRaise1 wEmpty itemOne).1.progress = wEmpty.progress :=
  stage_failure_leaves_ledger_unchanged envRaise1 wEmpty itemOne (by decide)

/-- Per-item skip: when an item's stage artifacts already exist on durable
storage (or no audio file resolves, in which case nothing runs either), a
re-run of `process_episode` changes no state and invokes zero executors. -/
theorem processEpisode_skip (env : Env) (w : World) (ep : Item)
    (h : artifactsPresent w ep = true) :
    (processEpisode env w ep).1 = w ∧ (processEpisode env w ep).2.1 = Calls.zero := by
  unfold artifactsPresent at h
  cases hres : resolveLocalFile w ep with
  | none => simp [processEpisode, hres]
  | some f =>
    rw [hres] at h
    have h' : ((w.transcripts.lookup (pyStem f)).isSome &&
        (w.tags.lookup (pyStem f)).isSome) = true := h
    rw [Bool.and_eq_true] at h'
    obtain ⟨ht, htg⟩ := h'
    obtain ⟨t, ht'⟩ := Option.isSome_iff_exists.mp ht
    obtain ⟨d, htg'⟩ := Option.isSome_iff_exists.mp htg
    have hstage : transcribeStage env w (pyStem f) f = (w, Calls.zero, some t) := by
      unfold transcribeStage
      rw [ht']
    have htag : tagStage env w (pyStem f) ep.title t = (w, Calls.zero) := by
      unfold tagStage
      rw [htg']
    by_cases hcont : f ∈ w.files
    · simp [processEpisode, hres, hcont, hstage, htag, Calls.zero_add]
    · simp [processEpisode, hres, hcont]

/-- Claim C1: when every item's stage artifacts already exist on durable
storage, a re-run of the whole pipeline invokes ZERO remote
Convert/Upload/Transcribe/Annotate calls and leaves the durable world —
transcripts, tags, blobs, FLACs, ledger — exactly as it was, so all
artifacts and the rebuilt AggregateIndex (at any one clock reading) are
identical.  Per stage, the skip checks are `transcript_file.exists()`,
`tags_file.exists()`, `blob.exists()` and `flac_path.exists()`; the
`artifactsPresent` hypothesis is the per-item conjunction of the first two,
which short-circuits the stages that would invoke the remaining executors. -/
theorem pipeline_second_run_is_idempotent (env : Env) (w : World)
    (eps : List Item) (h : ∀ ep ∈ eps, artifactsPresent w ep = true) :
    runBatch env w eps = (w, Calls.zero) ∧
    ∀ now, buildAnalysisIndex now (runBatch env w eps).1.tags =
      buildAnalysisIndex now w.tags := by
  have hrun : runBatch env w eps = (w, Calls.zero) := by
    induction eps with
    | nil => rfl
    | cons e rest ih =>
      have hskip := processEpisode_skip env w e (h e (by simp))
      show List.foldl _
        (let r := processEpisode env (w, Calls.zero).1 e
         (r.1, (w, Calls.zero).2 + r.2.1)) rest = (w, Calls.zero)
      rw [show (let r := processEpisode env (w, Calls.zero).1 e
          (r.1, (w, Calls.zero).2 + r.2.1)) = (w, Calls.zero) by
        dsimp only
        rw [hskip.1, hskip.2, Calls.zero_add]]
      exact ih (fun ep hep => h ep (by simp [hep]))
  exact ⟨hrun, fun now => by rw [hrun]⟩

/-- Witness for claim C1's theorem: in the world where episode `ep1` has its
transcript, tags, blob and ledger entries, a second run over the one-item
set returns the world unchanged with a zero call count. -/
theorem pipeline_second_run_witness :
    runBatch envHappy wDone [itemOne] = (wDone, Calls.zero) :=
  (pipeline_second_run_is_idempotent envHappy wDone [itemOne] (by decide)).1

/-! ## Newline-intercalation lemmas (for the code-fence claim) -/

theorem intercalate_singleton_cons {α : Type} (x : α) (a : List α)
    (l : List (List α)) (h : l ≠ []) :
    [x].intercalate (a :: l) = a ++ x :: [x].intercalate l := by
  cases l with
  | nil => exact absurd rfl h
  | cons b t =>
    simp [List.intercalate, List.intersperse_cons_cons]

theorem intercalate_singleton_concat {α : Type} (x : α)
    (ls : List (List α)) (c : List α) (h : ls ≠ []) :
    [x].intercalate (ls ++ [c]) = [x].intercalate ls ++ x :: c := by
  induction ls with
  | nil => exact absurd rfl h
  | cons a t ih =>
    cases t with
    | nil =>
      simp [List.intercalate, List.intersperse_cons_cons]
    | cons b t' =>
      rw [List.cons_append,
        intercalate_singleton_cons x a (b :: t' ++ [c]) (by simp),
        intercalate_singleton_cons x a (b :: t') (by simp),
        ih (by simp), List.append_assoc]
      rfl

/-- Claim C10: a response whose stripped text begins with a markdown code
fence has its first and last lines removed before JSON parsing, so a fenced
payload yields exactly the same annotation outcome as the identical payload
without the fences.  `opener` is the fence line (any first line starting
with three backticks), `closer` the closing line (any newline-free,
non-whitespace-terminated last line), and `parts` the payload's lines. -/
theorem fenced_response_parses_like_unfenced
    (parseJson : String → Option AnnotData)
    (opener closer : List Char) (parts : List (List Char))
    (hOp : fenceChars.isPrefixOf opener = true)
    (hOpNL : '\n' ∉ opener)
    (hClNL : '\n' ∉ closer)
    (hClNe : closer ≠ [])
    (hClLast : closer.getLast?.all (fun c => !isSp c) = true)
    (hPartsNL : ∀ p ∈ parts, '\n' ∉ p)
    (hPartsNe : parts ≠ [])
    (hBody : startsWith3Ticks ⟨['\n'].intercalate parts⟩ = false)
    (hBodyStrip : pyStrip ⟨['\n'].intercalate parts⟩ = ⟨['\n'].intercalate parts⟩) :
    parseTagResponse parseJson ⟨['\n'].intercalate (opener :: parts ++ [closer])⟩ =
      parseTagResponse parseJson ⟨['\n'].intercalate parts⟩ := by
  obtain ⟨t0, ht0⟩ : fenceChars <+: opener := List.isPrefixOf_iff_prefix.mp hOp
  have hF : ['\n'].intercalate (opener :: parts ++ [closer]) =
      opener ++ '\n' :: ['\n'].intercalate (parts ++ [closer]) :=
    intercalate_singleton_cons '\n' opener (parts ++ [closer]) (by simp)
  have hFsplit : (['\n'].intercalate (opener :: parts ++ [closer])).splitOn '\n' =
      opener :: parts ++ [closer] := by
    refine List.splitOn_intercalate _ '\n' ?_ (by simp)
    intro l hl
    rcases List.mem_cons.mp hl with rfl | hl'
    · exact hOpNL
    · rcases List.mem_append.mp hl' with hp | hc
      · exact hPartsNL l hp
      · rw [List.mem_singleton.mp hc]
        exact hClNL
  have hsw : startsWith3Ticks ⟨['\n'].intercalate (opener :: parts ++ [closer])⟩ = true := by
    unfold startsWith3Ticks
    refine List.isPrefixOf_iff_prefix.mpr ?_
    show fenceChars <+: ['\n'].intercalate (opener :: parts ++ [closer])
    rw [hF]
    exact List.IsPrefix.trans ⟨t0, ht0⟩ (List.prefix_append opener _)
  have hstrip : pyStrip ⟨['\n'].intercalate (opener :: parts ++ [closer])⟩ =
      ⟨['\n'].intercalate (opener :: parts ++ [closer])⟩ := by
    obtain ⟨d, hd⟩ := Option.isSome_iff_exists.mp
      (List.getLast?_isSome.mpr hClNe)
    apply String.ext
    show stripChars (['\n'].intercalate (opener :: parts ++ [closer])) = _
    refine stripChars_eq_self (c := '`') (d := d) ?_ (by decide) ?_ ?_
    · rw [hF, ← ht0]
      rfl
    · have hF2 : ['\n'].intercalate (opener :: parts ++ [closer]) =
          (['\n'].intercalate (opener :: parts) ++ ['\n']) ++ closer := by
        have := intercalate_singleton_concat '\n' (opener :: parts) closer (by simp)
        rw [List.cons_append] at this ⊢
        rw [this, List.append_assoc]
        rfl
      rw [hF2, List.getLast?_append, hd]
      rfl
    · rw [hd] at hClLast
      have : (!isSp d) = true := hClLast
      simpa using this
  have hfence : stripFence ⟨['\n'].intercalate (opener :: parts ++ [closer])⟩ =
      ⟨['\n'].intercalate parts⟩ := by
    unfold stripFence
    rw [hsw, if_pos rfl]
    show joinLines (((['\n'].intercalate (opener :: parts ++ [closer])).splitOn '\n').drop 1).dropLast = _
    rw [hFsplit]
    show joinLines (parts ++ [closer]).dropLast = _
    rw [List.dropLast_concat]
    rfl
  have hBodyFence : stripFence ⟨['\n'].intercalate parts⟩ =
      ⟨['\n'].intercalate parts⟩ := by
    unfold stripFence
    rw [hBody]
    rfl
  have e1 : stripFence (pyStrip ⟨['\n'].intercalate (opener :: parts ++ [closer])⟩) =
      ⟨['\n'].intercalate parts⟩ := by rw [hstrip, hfence]
  have e2 : stripFence (pyStrip ⟨['\n'].intercalate parts⟩) =
      ⟨['\n'].intercalate parts⟩ := by rw [hBodyStrip, hBodyFence]
  simp only [parseTagResponse]
  rw [e1, e2]

/-- Witness for claim C10's theorem: the fenced payload
"```json\npayload\n```" parses to the same annotation as the bare
"payload", which the demo parser accepts. -/
theorem fenced_response_witness :
    parseTagResponse fenceDemoParse
        ⟨['\n'].intercalate ("```json".data :: ["payload".data] ++ ["```".data])⟩ =
      parseTagResponse fenceDemoParse ⟨['\n'].intercalate ["payload".data]⟩ ∧
    parseTagResponse fenceDemoParse ⟨['\n'].intercalate ["payload".data]⟩ =
      TagFileData.ok annotOne := by
  constructor
  · exact fenced_response_parses_like_unfenced fenceDemoParse
      "```json".data "```".data ["payload".data]
      (by decide) (by decide) (by decide) (by decide) (by decide)
      (by decide) (by decide) (by decide) (by decide)
  · decide

/-! ## Frame lemmas for error isolation -/

/-- The tag stage never touches the audio files, the transcripts, or any
other item's tags entry. -/
theorem tagStage_frame (env : Env) (w : World) (base title t : String) :
    (tagStage env w base title t).1.files = w.files ∧
    (tagStage env w base title t).1.transcripts = w.transcripts ∧
    ∀ b, b ≠ base → (tagStage env w base title t).1.tags.lookup b = w.tags.lookup b := by
  unfold tagStage
  split
  · exact ⟨rfl, rfl, fun b _ => rfl⟩
  · split
    · exact ⟨rfl, rfl, fun b _ => rfl⟩
    · exact ⟨rfl, rfl, fun b hb => lookup_append_ne _ hb⟩

/-- The transcription stage never touches the audio files, the tags store,
or any other item's transcript entry. -/
theorem transcribeStage_frame (env : Env) (w : World) (base mp3 : String) :
    (transcribeStage env w base mp3).1.files = w.files ∧
    (transcribeStage env w base mp3).1.tags = w.tags ∧
    ∀ b, b ≠ base →
      (transcribeStage env w base mp3).1.transcripts.lookup b =
        w.transcripts.lookup b := by
  unfold transcribeStage
  split
  · exact ⟨rfl, rfl, fun b _ => rfl⟩
  · split
    · rename_i w1 c1 heq
      have hf := convertToFlac_frame env w mp3
      rw [heq] at hf
      exact ⟨hf.1, hf.2.2.1, fun b _ => by rw [hf.2.1]⟩
    · rename_i w1 c1 flacName heq
      have hf := convertToFlac_frame env w mp3
      rw [heq] at hf
      split
      · rename_i w2 c2 hequ
        have hu := uploadToGcs_frame env w1 flacName
        rw [hequ] at hu
        exact ⟨hu.1.trans hf.1, hu.2.2.1.trans hf.2.2.1,
          fun b _ => by rw [(removeFlac_frame w2 flacName).2.1, hu.2.1, hf.2.1]⟩
      · rename_i w2 c2 uri hequ
        have hu := uploadToGcs_frame env w1 flacName
        rw [hequ] at hu
        split
        · exact ⟨hu.1.trans hf.1, hu.2.2.1.trans hf.2.2.1,
            fun b _ => by rw [(removeFlac_frame w2 flacName).2.1, hu.2.1, hf.2.1]⟩
        · rename_i t heqt
          split
          · exact ⟨hu.1.trans hf.1, hu.2.2.1.trans hf.2.2.1,
              fun b _ => by rw [hu.2.1, hf.2.1]⟩
          · refine ⟨hu.1.trans hf.1, hu.2.2.1.trans hf.2.2.1, fun b hb => ?_⟩
            show ((w2.transcripts ++ [(base, t)]).lookup b) = w.transcripts.lookup b
            rw [lookup_append_ne _ hb, hu.2.1, hf.2.1]

/-- `process_episode` never changes the episodes directory listing. -/
theorem processEpisode_files (env : Env) (w : World) (ep : Item) :
    (processEpisode env w ep).1.files = w.files := by
  unfold processEpisode
  split
  · rfl
  · rename_i f hres
    split
    · dsimp only
      split
      · rename_i w1 c1 heq
        have hfr := transcribeStage_frame env w (pyStem f) f
        rw [heq] at hfr
        exact hfr.1
      · rename_i w1 c1 t heq
        have hfr := transcribeStage_frame env w (pyStem f) f
        rw [heq] at hfr
        have htf := tagStage_frame env w1 (pyStem f) ep.title t
        exact htf.1.trans hfr.1
    · rfl

/-- Processing one item only ever touches the transcript and tags entries
keyed by that item's own resolved stem. -/
theorem processEpisode_frame (env : Env) (w : World) (ep : Item) (b : String)
    (hb : ∀ f, resolveLocalFile w ep = some f → pyStem f ≠ b) :
    (processEpisode env w ep).1.transcripts.lookup b = w.transcripts.lookup b ∧
    (processEpisode env w ep).1.tags.lookup b = w.tags.lookup b := by
  unfold processEpisode
  split
  · exact ⟨rfl, rfl⟩
  · rename_i f hres
    have hbne : pyStem f ≠ b := hb f hres
    split
    · dsimp only
      split
      · rename_i w1 c1 heq
        have hfr := transcribeStage_frame env w (pyStem f) f
        rw [heq] at hfr
        exact ⟨hfr.2.2 b (fun h => hbne h.symm), by rw [hfr.2.1]⟩
      · rename_i w1 c1 t heq
        have hfr := transcribeStage_frame env w (pyStem f) f
        rw [heq] at hfr
        have htf := tagStage_frame env w1 (pyStem f) ep.title t
        constructor
        · show ((tagStage env w1 (pyStem f) ep.title t).1.transcripts.lookup b) = _
          rw [htf.2.1]
          exact hfr.2.2 b (fun h => hbne h.symm)
        · show ((tagStage env w1 (pyStem f) ep.title t).1.tags.lookup b) = _
          rw [htf.2.2 b (fun h => hbne h.symm), hfr.2.1]
    · exact ⟨rfl, rfl⟩

/-- Resolution depends on the world only through the directory listing. -/
theorem resolveLocalFile_congr (w w' : World) (ep : Item)
    (h : w'.files = w.files) :
    resolveLocalFile w' ep = resolveLocalFile w ep := by
  unfold resolveLocalFile
  cases ep.localFile with
  | some f => rfl
  | none =>
    show findEpisodeFile w'.files ep.title = findEpisodeFile w.files ep.title
    rw [h]

/-! ## Success-path lemmas -/

/-- When every collaborator of the transcription block succeeds and the
recognition result is non-empty, the stage returns the assembled transcript
and writes it under the item's stem. -/
theorem transcribeStage_success (env : Env) (w : World) (base mp3 : String)
    (segs : List String)
    (htr : w.transcripts.lookup base = none)
    (hffm : env.ffmpegOk mp3 = true)
    (hup : env.uploadOk (withFlac mp3) = true)
    (hsp : env.speechResults (gcsUri (withFlac mp3)) = some segs)
    (hne : transcriptFromResults segs ≠ "") :
    (transcribeStage env w base mp3).2.2 = some (transcriptFromResults segs) ∧
    (transcribeStage env w base mp3).1.transcripts.lookup base =
      some (transcriptFromResults segs) := by
  unfold transcribeStage convertToFlac uploadToGcs transcribeFromGcs
  rw [htr]
  by_cases hc : withFlac mp3 ∈ w.flacs <;>
    by_cases hb : blobNameOf (withFlac mp3) ∈ w.blobs <;>
      simp [hc, hb, hffm, hup, hsp, hne, removeFlac,
        lookup_append_self _ htr]

/-- When the tags artifact is absent and the generative call succeeds, the
tag stage writes a tags artifact for the item (parsed or error variant). -/
theorem tagStage_writes (env : Env) (w : World) (base title t : String)
    (htg : w.tags.lookup base = none)
    (hgen : (env.genContent (geminiPrompt title (pyTake 10000 t))).isSome = true) :
    ((tagStage env w base title t).1.tags.lookup base).isSome = true := by
  unfold tagStage
  rw [htg]
  obtain ⟨resp, hresp⟩ := Option.isSome_iff_exists.mp hgen
  rw [hresp]
  show ((w.tags ++ [(base, parseTagResponse env.parseJson resp)]).lookup base).isSome = true
  rw [lookup_append_self _ htg]
  rfl

/-- When all of an item's collaborators succeed, `process_episode` carries
the item through both stages: afterwards its transcript artifact holds the
assembled transcript, its tags artifact exists, and the item returns True. -/
theorem processEpisode_done (env : Env) (w : World) (ep : Item)
    (f : String) (segs : List String)
    (hf : ep.localFile = some f)
    (hcont : w.files.contains f = true)
    (htr : w.transcripts.lookup (pyStem f) = none)
    (htg : w.tags.lookup (pyStem f) = none)
    (hffm : env.ffmpegOk f = true)
    (hup : env.uploadOk (withFlac f) = true)
    (hsp : env.speechResults (gcsUri (withFlac f)) = some segs)
    (hne : transcriptFromResults segs ≠ "")
    (hgen : ∀ s, (env.genContent s).isSome = true) :
    (processEpisode env w ep).1.transcripts.lookup (pyStem f) =
      some (transcriptFromResults segs) ∧
    ((processEpisode env w ep).1.tags.lookup (pyStem f)).isSome = true ∧
    (processEpisode env w ep).2.2 = true := by
  have hres : resolveLocalFile w ep = some f := by
    unfold resolveLocalFile
    rw [hf]
  have hsucc := transcribeStage_success env w (pyStem f) f segs htr hffm hup hsp hne
  have hfr := transcribeStage_frame env w (pyStem f) f
  rcases hst : transcribeStage env w (pyStem f) f with ⟨w1, c1, r⟩
  rw [hst] at hsucc hfr
  obtain ⟨hr, hw1tr⟩ := hsucc
  cases hr
  have hw1tg : w1.tags.lookup (pyStem f) = none := by
    rw [hfr.2.1]
    exact htg
  have hwrites := tagStage_writes env w1 (pyStem f) ep.title
    (transcriptFromResults segs) hw1tg (hgen _)
  have htf := tagStage_frame env w1 (pyStem f) ep.title (transcriptFromResults segs)
  rcases htg2 : tagStage env w1 (pyStem f) ep.title (transcriptFromResults segs)
    with ⟨w2, c2⟩
  rw [htg2] at hwrites htf
  have hgoal : processEpisode env w ep = (w2, c1 + c2, true) := by
    unfold processEpisode
    rw [hres]
    dsimp only
    rw [if_pos hcont, hst]
    dsimp only
    rw [htg2]
  rw [hgoal]
  exact ⟨htf.2.1 ▸ hw1tr, hwrites, rfl⟩

/-! ## Batch-level lemmas -/

/-- The world reached by the batch fold does not depend on the call
accumulator. -/
theorem runBatch_world_indep (env : Env) :
    ∀ (eps : List Item) (a : World) (c c' : Calls),
    (eps.foldl (fun acc ep =>
      let r := processEpisode env acc.1 ep
      (r.1, acc.2 + r.2.1)) (a, c)).1 =
    (eps.foldl (fun acc ep =>
      let r := processEpisode env acc.1 ep
      (r.1, acc.2 + r.2.1)) (a, c')).1 := by
  intro eps
  induction eps with
  | nil => intro a c c'; rfl
  | cons e rest ih =>
    intro a c c'
    rw [List.foldl_cons, List.foldl_cons]
    exact ih _ _ _

/-- Unfolding one step of the orchestrator loop, on the world component. -/
theorem runBatch_cons (env : Env) (w : World) (e : Item) (rest : List Item) :
    (runBatch env w (e :: rest)).1 =
      (runBatch env (processEpisode env w e).1 rest).1 := by
  unfold runBatch
  rw [List.foldl_cons]
  exact runBatch_world_indep env rest _ _ _

/-- Running the batch over items none of which resolves to stem `b` leaves
the transcript and tags entries of `b` (and the directory listing)
untouched. -/
theorem runBatch_preserves (env : Env) (b : String) :
    ∀ (eps : List Item) (w : World),
    (∀ ep ∈ eps, ∀ f, resolveLocalFile w ep = some f → pyStem f ≠ b) →
    (runBatch env w eps).1.transcripts.lookup b = w.transcripts.lookup b ∧
    (runBatch env w eps).1.tags.lookup b = w.tags.lookup b ∧
    (runBatch env w eps).1.files = w.files := by
  intro eps
  induction eps with
  | nil => intro w _; exact ⟨rfl, rfl, rfl⟩
  | cons e rest ih =>
    intro w h
    have hframe := processEpisode_frame env w e b (h e (List.mem_cons_self e rest))
    have hfiles := processEpisode_files env w e
    have hhyp : ∀ ep' ∈ rest, ∀ f,
        resolveLocalFile (processEpisode env w e).1 ep' = some f → pyStem f ≠ b := by
      intro ep' hep' f hfres
      rw [resolveLocalFile_congr w (processEpisode env w e).1 ep' hfiles] at hfres
      exact h ep' (List.mem_cons_of_mem e hep') f hfres
    have hrest := ih (processEpisode env w e).1 hhyp
    refine ⟨?_, ?_, ?_⟩
    · rw [runBatch_cons, hrest.1, hframe.1]
    · rw [runBatch_cons, hrest.2.1, hframe.2]
    · rw [runBatch_cons, hrest.2.2, hfiles]

/-- The induction behind error isolation: any item of the batch whose own
collaborators all succeed reaches Done for both stages in the final world,
no matter what happens to the other items. -/
theorem runBatch_done_aux (env : Env)
    (hgen : ∀ s, (env.genContent s).isSome = true) :
    ∀ (eps : List Item) (w : World),
    (∀ ep ∈ eps, ∃ f, ep.localFile = some f ∧ w.files.contains f = true) →
    (eps.map (fun ep => pyStem (epFile ep))).Nodup →
    (∀ ep ∈ eps, w.transcripts.lookup (pyStem (epFile ep)) = none ∧
      w.tags.lookup (pyStem (epFile ep)) = none) →
    ∀ ep ∈ eps,
      (env.ffmpegOk (epFile ep) = true ∧
       env.uploadOk (withFlac (epFile ep)) = true ∧
       ∃ segs, env.speechResults (gcsUri (withFlac (epFile ep))) = some segs ∧
         transcriptFromResults segs ≠ "") →
      ((runBatch env w eps).1.transcripts.lookup (pyStem (epFile ep))).isSome = true ∧
      ((runBatch env w eps).1.tags.lookup (pyStem (epFile ep))).isSome = true := by
  intro eps
  induction eps with
  | nil =>
    intro w _ _ _ ep hep
    cases hep
  | cons e rest ih =>
    intro w hfiles hnodup hfresh ep hep hok
    obtain ⟨fe, hfe, hfecont⟩ := hfiles e (List.mem_cons_self e rest)
    have hepFile_e : epFile e = fe := by
      unfold epFile
      rw [hfe]
      rfl
    have hfilesw1 := processEpisode_files env w e
    have hnodup' := List.nodup_cons.mp hnodup
    rcases List.mem_cons.mp hep with rfl | hepr
    · obtain ⟨hffm, hup, segs, hsp, hsegne⟩ := hok
      rw [hepFile_e] at hffm hup hsp ⊢
      have hfre := hfresh ep (List.mem_cons_self ep rest)
      rw [hepFile_e] at hfre
      have hdone := processEpisode_done env w ep fe segs hfe hfecont
        hfre.1 hfre.2 hffm hup hsp hsegne hgen
      have hprh : ∀ ep' ∈ rest, ∀ f,
          resolveLocalFile (processEpisode env w ep).1 ep' = some f →
            pyStem f ≠ pyStem fe := by
        intro ep' hep' f hres'
        obtain ⟨f', hf', _⟩ := hfiles ep' (List.mem_cons_of_mem ep hep')
        have hres2 : resolveLocalFile (processEpisode env w ep).1 ep' = some f' := by
          unfold resolveLocalFile
          rw [hf']
        rw [hres2] at hres'
        cases hres'
        have hmem : pyStem (epFile ep') ∈ rest.map (fun x => pyStem (epFile x)) :=
          List.mem_map_of_mem _ hep'
        have hff' : epFile ep' = f := by
          unfold epFile
          rw [hf']
          rfl
        intro hcontra
        apply hnodup'.1
        show pyStem (epFile ep) ∈ rest.map (fun x => pyStem (epFile x))
        rw [hepFile_e, ← hcontra, ← hff']
        exact hmem
      have hpres := runBatch_preserves env (pyStem fe) rest
        (processEpisode env w ep).1 hprh
      constructor
      · rw [runBatch_cons, hpres.1, hdone.1]
        rfl
      · rw [runBatch_cons, hpres.2.1]
        exact hdone.2.1
    · have hbne : ∀ f, resolveLocalFile w e = some f →
          pyStem f ≠ pyStem (epFile ep) := by
        intro f hres
        have hres2 : resolveLocalFile w e = some fe := by
          unfold resolveLocalFile
          rw [hfe]
        rw [hres2] at hres
        cases hres
        intro hcontra
        apply hnodup'.1
        show pyStem (epFile e) ∈ rest.map (fun x => pyStem (epFile x))
        rw [hepFile_e, hcontra]
        exact List.mem_map_of_mem _ hepr
      have hframe := processEpisode_frame env w e (pyStem (epFile ep)) hbne
      have ihres := ih (processEpisode env w e).1
        (by
          intro ep' hep'
          obtain ⟨f', hf', hc'⟩ := hfiles ep' (List.mem_cons_of_mem e hep')
          exact ⟨f', hf', by rw [hfilesw1]; exact hc'⟩)
        hnodup'.2
        (by
          intro ep' hep'
          have hbne' : ∀ f, resolveLocalFile w e = some f →
              pyStem f ≠ pyStem (epFile ep') := by
            intro f hres
            have hres2 : resolveLocalFile w e = some fe := by
              unfold resolveLocalFile
              rw [hfe]
            rw [hres2] at hres
            cases hres
            intro hcontra
            apply hnodup'.1
            show pyStem (epFile e) ∈ rest.map (fun x => pyStem (epFile x))
            rw [hepFile_e, hcontra]
            exact List.mem_map_of_mem _ hep'
          have hfr' := processEpisode_frame env w e (pyStem (epFile ep')) hbne'
          have hf0 := hfresh ep' (List.mem_cons_of_mem e hep')
          exact ⟨hfr'.1.trans hf0.1, hfr'.2.trans hf0.2⟩)
        ep hepr hok
      rw [runBatch_cons]
      exact ihres

/-- Claim C3: error isolation.  In an item set in which exactly one item's
Transcribe call raises (hbadIn/hbadRaises pin the scenario: `bad` is in the
set and its recognition operation raises; every other item's collaborators
succeed), processing of the failing item stops, but the orchestrator still
carries every other item through all stages to Done: in the final world each
of them has its transcript artifact and its tags artifact.  The batch
completes without a fatal abort: `runBatch` is the total fold of
`process_episode` over the WHOLE item list (the loop's `except ... continue`
makes per-item failure non-fatal), so the final world containing the other
items' artifacts is itself the evidence that processing continued past the
failure. -/
theorem transcribe_failure_isolated_to_one_item
    (env : Env) (w : World) (eps : List Item) (bad : Item)
    (hfiles : ∀ ep ∈ eps, ∃ f, ep.localFile = some f ∧ w.files.contains f = true)
    (hnodup : (eps.map (fun ep => pyStem (epFile ep))).Nodup)
    (hfresh : ∀ ep ∈ eps,
      w.transcripts.lookup (pyStem (epFile ep)) = none ∧
      w.tags.lookup (pyStem (epFile ep)) = none)
    (hgen : ∀ s, (env.genContent s).isSome = true)
    (hbadIn : bad ∈ eps)
    (hbadRaises : env.speechResults (gcsUri (withFlac (epFile bad))) = none)
    (hok : ∀ ep ∈ eps, ep ≠ bad →
      env.ffmpegOk (epFile ep) = true ∧
      env.uploadOk (withFlac (epFile ep)) = true ∧
      ∃ segs, env.speechResults (gcsUri (withFlac (epFile ep))) = some segs ∧
        transcriptFromResults segs ≠ "") :
    ∀ ep ∈ eps, ep ≠ bad →
      ((runBatch env w eps).1.transcripts.lookup (pyStem (epFile ep))).isSome = true ∧
      ((runBatch env w eps).1.tags.lookup (pyStem (epFile ep))).isSome = true := by
  intro ep hep hne
  exact runBatch_done_aux env hgen eps w hfiles hnodup hfresh ep hep (hok ep hep hne)

/-- Witness for claim C3's theorem: two episodes; episode one's recognition
operation raises, episode two still reaches Done for both stages. -/
theorem transcribe_failure_isolated_witness :
    ((runBatch envRaise1 wEmpty [itemOne, itemTwo]).1.transcripts.lookup
      (pyStem (epFile itemTwo))).isSome = true ∧
    ((runBatch envRaise1 wEmpty [itemOne, itemTwo]).1.tags.lookup
      (pyStem (epFile itemTwo))).isSome = true := by
  refine transcribe_failure_isolated_to_one_item envRaise1 wEmpty
    [itemOne, itemTwo] itemOne ?_ (by decide) ?_ ?_ (by decide) (by decide) ?_
    itemTwo (by decide) (by decide)
  · intro ep hep
    rcases List.mem_cons.mp hep with rfl | hep'
    · exact ⟨"ep1.mp3", rfl, by decide⟩
    · rcases List.mem_cons.mp hep' with rfl | h0
      · exact ⟨"ep2.mp3", rfl, by decide⟩
      · cases h0
  · intro ep hep
    rcases List.mem_cons.mp hep with rfl | hep'
    · exact ⟨rfl, rfl⟩
    · rcases List.mem_cons.mp hep' with rfl | h0
      · exact ⟨rfl, rfl⟩
      · cases h0
  · intro s
    rfl
  · intro ep hep hne
    rcases List.mem_cons.mp hep with rfl | hep'
    · exact absurd rfl hne
    · rcases List.mem_cons.mp hep' with rfl | h0
      · exact ⟨rfl, rfl, ["seg"], by decide, by decide⟩
      · cases h0

end Pipeline
